import Mathlib

/-!
Verification of the Open Duck Mini locomotion stack
(`experiments/placo/bdx_walk.py` and
`experiments/mujoco/onnx_AMP_mujoco.py`), shallowly embedded in Lean 4.

Numbers in the Python source are IEEE binary64 doubles.  Where a claim's
truth hinges on rounding (the repeated `time_since_last_contact += DT`
accumulation compared against `single_support_duration`), we model the
double arithmetic exactly.  Every double arising in that computation is a
nonnegative multiple of `2^(-59)` (the unit in the last place of the
double nearest `0.01`), so we represent such a double by the natural
number `n` with value `n / 2^59`, and implement binary64
round-to-nearest, ties-to-even on that representation with pure natural
arithmetic.  Overflow, subnormals and NaNs never arise in the embedded
computations.

Quantities whose claims do not depend on rounding (the planning clock,
trajectory sample times, replan cadence) are modelled over `ℚ` with exact
arithmetic.
-/

namespace DuckWalk

/-- Control period of the placo walk loop (`DT = 0.01` in `bdx_walk.py`),
as the real number the source text denotes; the double it parses to is
`DT59` below (in units of `2^(-59)`). -/
def DT : ℚ := 1 / 100

/-- Number of IK refine sub-iterations per control tick
(`REFINE = 10` in `bdx_walk.py`). -/
def REFINE : ℕ := 10

/-- `parameters.single_support_duration = 0.2` in `bdx_walk.py`, as the
real number the source text denotes; the double it parses to is `ssd59`
below. -/
def singleSupportDuration : ℚ := 1 / 5

/-! ## Exact model of IEEE binary64 values in fixed-point units `2^(-59)`

A nonnegative binary64 double that is an integer multiple of `2^(-59)`
is represented by that multiple `n : ℕ`.  The bit length of `n` locates
the binade: for `n` with bit length `len > 53`, the ulp of the
represented value is `2^(len - 53)` units. -/

/-- Bit length of a natural number below `2^64`: the least `len` with
`n < 2^len`, computed by a bounded scan (avoids well-founded recursion so
that `decide` can evaluate it in the kernel). -/
def bitLen (n : ℕ) : ℕ :=
  (List.range 64).foldl (fun acc i => if 2 ^ i ≤ n then i + 1 else acc) 0

/-- Round the exact value `num / den` (in units of `2^(-59)`, with
`den > 0`) to the nearest binary64 double, ties to even, returning the
result in the same units.  Used both for decimal-literal parsing
(`num / den = literal * 2^59`) and, with `den = 1`, for re-rounding an
exact sum of two doubles. -/
def round53 (num den : ℕ) : ℕ :=
  let len := bitLen (num / den)
  let ulp := 2 ^ (len - 53)
  let d := den * ulp
  let q := num / d
  let r := num % d
  let lo := q * ulp
  let hi := (q + 1) * ulp
  if 2 * r < d then lo
  else if d < 2 * r then hi
  else if q % 2 = 0 then lo else hi

/-- The binary64 double nearest the nonnegative rational `a / b`, in
units of `2^(-59)`. -/
def parse59 (a b : ℕ) : ℕ := round53 (a * 2 ^ 59) b

/-- binary64 addition of two doubles given in units of `2^(-59)`:
exact sum, then rounding back to 53 significant bits. -/
def addD59 (x y : ℕ) : ℕ := round53 (x + y) 1

/-- The double the literal `0.01` (`DT`) parses to, in units of
`2^(-59)`. -/
def DT59 : ℕ := parse59 1 100

/-- The double the literal `0.2` (`single_support_duration`) parses to,
in units of `2^(-59)`. -/
def ssd59 : ℕ := parse59 1 5

example : DT59 = 5764607523034235 := by decide
example : ssd59 = 3602879701896397 * 2 ^ 5 := by decide
example : addD59 DT59 DT59 = 5764607523034235 * 2 := by decide

/-! ## Contact-loss fault detection (`petage_de_gueule`)

Embedding of `bdx_walk.py` lines 288-308 (the `--mujoco` branch of the
tick loop).  Per tick the code, in this order:
1. reads `(right_contact, left_contact)` and zeroes the corresponding
   `time_since_last_*_contact` counter on observed contact;
2. sets `petage_de_gueule := True` iff either counter (after the resets)
   exceeds `single_support_duration`, and `False` otherwise;
3. adds `DT` to both counters.
Counters are binary64 doubles, in units of `2^(-59)` here. -/

/-- State of the fault detector: the two `time_since_last_*_contact`
counters (doubles in units of `2^(-59)`) and the `petage_de_gueule`
flag. -/
structure ContactState where
  tslcLeft : ℕ
  tslcRight : ℕ
  petageDeGueule : Bool
  deriving DecidableEq, Repr

/-- Initial fault-detector state: both counters `0.0`, flag `False`
(`bdx_walk.py` lines 178-179 and 194). -/
def initContact : ContactState :=
  { tslcLeft := 0, tslcRight := 0, petageDeGueule := false }

/-- One tick of the contact / fault-detection block
(`bdx_walk.py` lines 289-308): reset counters on contact, recompute the
fault flag by comparing both counters against `single_support_duration`,
then advance both counters by `DT` (binary64 addition). -/
def contactTick (leftContact rightContact : Bool) (s : ContactState) :
    ContactState :=
  let l := if leftContact then 0 else s.tslcLeft
  let r := if rightContact then 0 else s.tslcRight
  let fault := ssd59 < l || ssd59 < r
  { tslcLeft := addD59 l DT59
    tslcRight := addD59 r DT59
    petageDeGueule := fault }

/-- The trace in which the left foot never touches the ground while the
right foot is in contact at every tick: state after `n` ticks from the
initial state. -/
def contactlessTrace : ℕ → ContactState
  | 0 => initContact
  | n + 1 => contactTick false true (contactlessTrace n)

set_option maxRecDepth 4000 in
example : (contactlessTrace 20).petageDeGueule = false := by decide

set_option maxRecDepth 4000 in
example : (contactlessTrace 21).petageDeGueule = true := by decide

/-! ## IMU transport-delay simulator

Embedding of `ImuDelaySimulator` from
`experiments/mujoco/onnx_AMP_mujoco.py` (lines 136-155).  The Python
object keeps two parallel lists `rot` and `ang_rot`, the construction
parameter `delay_ms`, and `t0`, the timestamp of the first `push`
(`None` before any push).  `get()` reads the current wall-clock time;
we pass that time explicitly as `now`.  `get()` on a state with
`t0 = None` raises a `TypeError`, and `pop(0)` on an empty list raises
an `IndexError`; both are modelled as `none`.  Time arithmetic carries
no rounding knife-edge in any claim, so it is modelled exactly over
`ℚ`. -/

/-- State of the IMU delay simulator: `delay_ms`, the two parallel FIFO
lists, and the timestamp of the first push. -/
structure ImuDelaySimulator where
  delay_ms : ℚ
  rot : List (List ℚ)
  ang_rot : List (List ℚ)
  t0 : Option ℚ
  deriving DecidableEq, Repr

namespace ImuDelaySimulator

/-- `ImuDelaySimulator.__init__(delay_ms)`: empty lists, `t0 = None`. -/
def init (delay_ms : ℚ) : ImuDelaySimulator :=
  { delay_ms := delay_ms, rot := [], ang_rot := [], t0 := none }

/-- `push(rot, ang_rot, t)`: append to both lists; record `t` as `t0`
if this is the first push. -/
def push (s : ImuDelaySimulator) (rot ang_rot : List ℚ) (t : ℚ) :
    ImuDelaySimulator :=
  { s with
    rot := s.rot ++ [rot]
    ang_rot := s.ang_rot ++ [ang_rot]
    t0 := match s.t0 with
      | none => some t
      | some x => some x }

/-- The zeroed value `([0, 0, 0, 0], [0, 0, 0])` that `get()` returns
while the delay has not elapsed. -/
def zeroed : List ℚ × List ℚ := ([0, 0, 0, 0], [0, 0, 0])

/-- `get()` at wall-clock time `now`: with `t0 = None` the Python code
raises (`none` here); while `now - t0 < delay_ms / 1000` it returns the
zeroed value without touching the queues; otherwise it pops the head of
both queues (raising, i.e. `none`, if they are empty).  Returns the
value produced together with the successor state. -/
def get (s : ImuDelaySimulator) (now : ℚ) :
    Option ((List ℚ × List ℚ) × ImuDelaySimulator) :=
  match s.t0 with
  | none => none
  | some t0 =>
    if now - t0 < s.delay_ms / 1000 then
      some (zeroed, s)
    else
      match s.rot, s.ang_rot with
      | r :: rs, a :: as_ => some ((r, a), { s with rot := rs, ang_rot := as_ })
      | _, _ => none

/-- Push a whole list of `(rot, ang_rot, timestamp)` observations in
order. -/
def pushAll (s : ImuDelaySimulator) :
    List ((List ℚ × List ℚ) × ℚ) → ImuDelaySimulator
  | [] => s
  | (v, t) :: rest => pushAll (s.push v.1 v.2 t) rest

/-- Drain `n` values by successive `get` calls, all at wall-clock time
`now`; `none` as soon as one `get` raises. -/
def drain (s : ImuDelaySimulator) (now : ℚ) :
    ℕ → Option (List (List ℚ × List ℚ) × ImuDelaySimulator)
  | 0 => some ([], s)
  | n + 1 =>
    match s.get now with
    | none => none
    | some (v, s') =>
      match s'.drain now n with
      | none => none
      | some (vs, s'') => some (v :: vs, s'')

end ImuDelaySimulator

/-! ## Walk-engine tick loop

Embedding of the main loop of `bdx_walk.py` (lines 196-322).  The placo
library objects (`trajectory`, `walk`, the solver) are external to this
repository; the trajectory is an abstract type `T`, the support sequence
an abstract type `S`, and the library calls
`walk.can_replan_supports`, `walk.replan_supports`, `walk.replan` are
abstract functions.  What the loop does with them — the refine
sub-iterations, the fault guard on task updates, the replan gating, the
clock advance and the wall-clock pacing — is translated from the
source. -/

/-- Solver-facing events of one refine sub-iteration, in program order:
`tasks.update_tasks_from_trajectory(trajectory, time)` (recorded with
its sample time), `robot.update_kinematics()`, `solver.solve(True)`. -/
inductive SolverEvent
  | taskUpdate (time : ℚ)
  | updateKinematics
  | solve
  deriving DecidableEq, Repr

/-- Whether an event is a task update (at any sample time). -/
def SolverEvent.isTaskUpdate : SolverEvent → Bool
  | .taskUpdate _ => true
  | _ => false

section Engine

variable {T S : Type}

/-- The body of one refine sub-iteration (`bdx_walk.py` lines 202-208),
at loop index `k`: the task targets are updated from the trajectory at
time `t - DT + k * DT / REFINE` unless `petage_de_gueule` holds, then
kinematics are updated and the solver runs.  `acc` carries the solver's
task targets as the `(trajectory, sample time)` pair last applied
(`none` if never applied) together with the event trace so far. -/
def refineStep (petage : Bool) (traj : T) (t : ℚ)
    (acc : Option (T × ℚ) × List SolverEvent) (k : ℕ) :
    Option (T × ℚ) × List SolverEvent :=
  let upd :=
    if petage then (acc.1, ([] : List SolverEvent))
    else
      (some (traj, t - DT + k * DT / REFINE),
        [SolverEvent.taskUpdate (t - DT + k * DT / REFINE)])
  (upd.1,
    acc.2 ++ upd.2 ++ [SolverEvent.updateKinematics, SolverEvent.solve])

/-- The refine loop (`bdx_walk.py` lines 202-208): `REFINE` iterations
of `refineStep`, starting from the given task targets and an empty event
trace. -/
def refinePhase (petage : Bool) (traj : T) (t : ℚ)
    (targets : Option (T × ℚ)) : Option (T × ℚ) × List SolverEvent :=
  (List.range REFINE).foldl (refineStep petage traj t) (targets, [])

variable (canReplanSupports : T → ℚ → Bool)
variable (replanSupports : T → ℚ → S)
variable (walkReplan : S → T → ℚ → T)
variable (paramsDt : ℚ)

/-- `parameters.replan_timesteps = 10` (`bdx_walk.py` line 48). -/
def replanTimesteps : ℚ := 10

/-- Engine state threaded through the tick loop: planning clock `t`,
`last_replan`, the current trajectory, the solver task targets last
applied, and the contact / fault state. -/
structure EngineState (T : Type) where
  t : ℚ
  lastReplan : ℚ
  traj : T
  taskTargets : Option (T × ℚ)
  contact : ContactState

/-- The replan block (`bdx_walk.py` lines 217-227): if
`t - last_replan > replan_timesteps * parameters.dt()` and
`walk.can_replan_supports(trajectory, t)`, set `last_replan := t`,
recompute the supports and replace the trajectory; otherwise do
nothing. -/
def replanPhase (st : EngineState T) : EngineState T :=
  if st.t - st.lastReplan > replanTimesteps * paramsDt ∧
      canReplanSupports st.traj st.t then
    { st with
      lastReplan := st.t
      traj := walkReplan (replanSupports st.traj st.t) st.traj st.t }
  else st

/-- One full control tick (`--mujoco` path): refine loop, replan block,
contact sensing / fault recomputation, then `t += DT`.  Returns the new
state and the solver event trace of the tick. -/
def tick (contacts : Bool × Bool) (st : EngineState T) :
    EngineState T × List SolverEvent :=
  let refined := refinePhase st.contact.petageDeGueule st.traj st.t st.taskTargets
  let st1 := { st with taskTargets := refined.1 }
  let st2 := replanPhase canReplanSupports replanSupports walkReplan paramsDt st1
  let st3 := { st2 with contact := contactTick contacts.1 contacts.2 st2.contact }
  ({ st3 with t := st3.t + DT }, refined.2)

end Engine

/-- The wall-clock pacing loop (`bdx_walk.py` lines 321-322):
`while time.time() < start_t + t: time.sleep(1e-5)`.  `polls` is the
(monotone) sequence of wall-clock readings at successive iterations;
the function returns the reading at which the loop exits, or `none` if
the deadline is never reached within the polls. -/
def paceLoop (deadline : ℚ) : List ℚ → Option ℚ
  | [] => none
  | now :: rest => if now < deadline then paceLoop deadline rest else some now

/-- Support phase of the walk at an instant (spec section 3,
"Support"). -/
inductive SupportSide
  | left
  | right
  | both
  deriving DecidableEq, Repr

/-- Modelled from the spec (refinement comparison for the fault
condition, spec 4.4): "`WALKING → FAULTED` when
`time_since_last_contact[side] > single_support_duration` for either
foot while in single support on that side".  Counters are doubles in
units of `2^(-59)` as in `ContactState`. -/
def specFaultCondition (side : SupportSide) (tslcL tslcR : ℕ) : Prop :=
  (side = SupportSide.left ∧ ssd59 < tslcL) ∨
    (side = SupportSide.right ∧ ssd59 < tslcR)

instance (side : SupportSide) (l r : ℕ) :
    Decidable (specFaultCondition side l r) := by
  unfold specFaultCondition; infer_instance

/-! ## Footstep planner (modelled from the spec)

`bdx_walk.py` lines 140-157 call
`placo.FootstepsPlannerRepetitive.plan`, which lives in the external
placo library, not in this repository; only its caller is in `src`.
Following spec section 4.2, we model it: starting from the current foot
poses, footsteps are placed alternately — the first under the side
opposite `starting_side` — each by composing the previous same-side
foot pose with the per-step displacement, for `num_steps` steps,
followed by a fixed number of closing footsteps that bring the feet
together (`closingSteps`).  The pose type `P` and the per-step
placement map `place` are abstract: the claims under verification
concern only the side tags and the sequence length. -/

/-- A foot side. -/
inductive Side
  | left
  | right
  deriving DecidableEq, Repr

/-- The other side. -/
def Side.opposite : Side → Side
  | .left => .right
  | .right => .left

/-- A planned footstep: a side tag and a target pose. -/
structure Footstep (P : Type) where
  side : Side
  pose : P
  deriving DecidableEq, Repr

/-- Modelled from the spec: the number of closing footsteps the
repetitive planner appends after the `num_steps` requested steps to
bring the feet together (one per foot). -/
def closingSteps : ℕ := 2

/-- Modelled from the spec: place `n` alternating footsteps, the next
one on side `side`, where `place s p` composes the previous same-side
foot pose `p` with the per-step displacement.  `lp`/`rp` are the most
recent left/right foot poses. -/
def planAlternating {P : Type} (place : Side → P → P) :
    ℕ → Side → P → P → List (Footstep P)
  | 0, _, _, _ => []
  | n + 1, side, lp, rp =>
    match side with
    | .left =>
      let p := place Side.left lp
      ⟨Side.left, p⟩ :: planAlternating place n Side.right p rp
    | .right =>
      let p := place Side.right rp
      ⟨Side.right, p⟩ :: planAlternating place n Side.left lp p

/-- Modelled from the spec: `FootstepsPlannerRepetitive.plan
(starting_side, T_world_left, T_world_right)` — `num_steps` alternating
footsteps starting with the side opposite `starting_side`, then the
closing footsteps, which continue the alternation. -/
def planFootsteps {P : Type} (place : Side → P → P) (numSteps : ℕ)
    (startingSide : Side) (leftPose rightPose : P) : List (Footstep P) :=
  planAlternating place (numSteps + closingSteps) startingSide.opposite
    leftPose rightPose

/-- The alternating side sequence of length `n` starting at `s`. -/
def altSides : ℕ → Side → List Side
  | 0, _ => []
  | n + 1, s => s :: altSides n s.opposite

/-- The kinematics solver's integration sub-step, `solver.dt = DT / REFINE`
(`bdx_walk.py` line 87), set once before the loop. -/
def solverDt : ℚ := DT / (REFINE : ℚ)

/-! ## Helper lemmas -/

namespace ImuDelaySimulator

theorem get_zeroed (s : ImuDelaySimulator) (τ0 now : ℚ) (h : s.t0 = some τ0)
    (hlt : now - τ0 < s.delay_ms / 1000) : s.get now = some (zeroed, s) := by
  simp [get, h, hlt]

theorem get_pop (s : ImuDelaySimulator) (τ0 now : ℚ) (r a : List ℚ)
    (rs as_ : List (List ℚ)) (h : s.t0 = some τ0)
    (hge : ¬ now - τ0 < s.delay_ms / 1000) (hr : s.rot = r :: rs)
    (ha : s.ang_rot = a :: as_) :
    s.get now = some ((r, a), { s with rot := rs, ang_rot := as_ }) := by
  simp [get, h, hge, hr, ha]

theorem drain_all (now : ℚ) (vs : List (List ℚ × List ℚ)) :
    ∀ d τ0 : ℚ, ¬ now - τ0 < d / 1000 →
      (ImuDelaySimulator.mk d (vs.map Prod.fst) (vs.map Prod.snd)
          (some τ0)).drain now vs.length =
        some (vs, ImuDelaySimulator.mk d [] [] (some τ0)) := by
  induction vs with
  | nil => intro d τ0 _; simp [drain]
  | cons v vs ih =>
    intro d τ0 hge
    have hget := get_pop
      (ImuDelaySimulator.mk d ((v :: vs).map Prod.fst)
        ((v :: vs).map Prod.snd) (some τ0)) τ0 now v.1 v.2
      (vs.map Prod.fst) (vs.map Prod.snd) rfl hge (by simp) (by simp)
    simp only [List.length_cons, drain, hget]
    simp [ih d τ0 hge]

theorem pushAll_spec (obs : List ((List ℚ × List ℚ) × ℚ)) :
    ∀ (d : ℚ) (rot ang : List (List ℚ)) (t0 : Option ℚ),
      (ImuDelaySimulator.mk d rot ang t0).pushAll obs =
        ImuDelaySimulator.mk d (rot ++ obs.map (fun o => o.1.1))
          (ang ++ obs.map (fun o => o.1.2))
          (match t0 with
            | some x => some x
            | none => obs.head?.map Prod.snd) := by
  induction obs with
  | nil => intro d rot ang t0; cases t0 <;> simp [pushAll]
  | cons o rest ih =>
    intro d rot ang t0
    cases t0 <;> simp [pushAll, push, ih, List.append_assoc]

end ImuDelaySimulator

/-! ## Claim theorems: IMU delay simulator -/

/-- **C1** (counterexample): the claim's per-value withholding clause is
false.  With `delay_ms = 100`, pushing `v₁ = ([1],[1])` at `t₁ = 0` and
`v₂ = ([2],[2])` at `t₂ = 1/20`, a first `get` at `0.11` dequeues `v₁`;
the next `get` at `0.12` already returns `v₂` — not the zeroed value —
even though `0.12 < t₂ + delay = 0.15`: `get` compares elapsed time
against the *first* pushed timestamp only. -/
theorem imuDelay_per_value_withholding_fails :
    (((ImuDelaySimulator.init 100).push [1] [1] 0).push [2] [2]
          (1 / 20)).get (11 / 100) =
        some (([1], [1]), ImuDelaySimulator.mk 100 [[2]] [[2]] (some 0)) ∧
      (ImuDelaySimulator.mk 100 [[2]] [[2]] (some 0)).get (12 / 100) =
        some (([2], [2]), ImuDelaySimulator.mk 100 [] [] (some 0)) ∧
      (12 : ℚ) / 100 < 1 / 20 + 100 / 1000 ∧
      ([2], [2]) ≠ ImuDelaySimulator.zeroed := by
  refine ⟨?_, ?_, by norm_num, by simp [ImuDelaySimulator.zeroed]⟩ <;>
    norm_num [ImuDelaySimulator.get, ImuDelaySimulator.push,
      ImuDelaySimulator.init]

/-- **C1** (amended): pushing `v₁..vn` at strictly increasing timestamps
`t₁ < ... < tn` and draining yields exactly `v₁..vn` in order; each value
is withheld (the zeroed value returned in its place, queues untouched) by
every `get` made before `t₁ + delay_ms` — the delay is measured from the
*first* pushed timestamp, not per value. -/
theorem imuDelay_roundtrip_first_timestamp
    (d t₁ now : ℚ) (v₁ : List ℚ × List ℚ)
    (rest : List ((List ℚ × List ℚ) × ℚ))
    (_hmono : (((v₁, t₁) :: rest).map Prod.snd).Chain' (· < ·)) :
    (now - t₁ < d / 1000 →
      ((ImuDelaySimulator.init d).pushAll ((v₁, t₁) :: rest)).get now =
        some (ImuDelaySimulator.zeroed,
          (ImuDelaySimulator.init d).pushAll ((v₁, t₁) :: rest))) ∧
    (¬ now - t₁ < d / 1000 →
      ((ImuDelaySimulator.init d).pushAll ((v₁, t₁) :: rest)).drain now
          ((v₁, t₁) :: rest).length =
        some ((((v₁, t₁) :: rest)).map Prod.fst,
          ImuDelaySimulator.mk d [] [] (some t₁))) := by
  have hs := ImuDelaySimulator.pushAll_spec ((v₁, t₁) :: rest) d [] [] none
  simp only [ImuDelaySimulator.init, hs, List.nil_append, List.head?_cons]
  constructor
  · intro hlt
    exact ImuDelaySimulator.get_zeroed _ t₁ now rfl hlt
  · intro hge
    have := ImuDelaySimulator.drain_all now (((v₁, t₁) :: rest).map Prod.fst)
      d t₁ hge
    simpa [List.map_map, Function.comp] using this

/-- Witness for `imuDelay_roundtrip_first_timestamp` at `d = 0`, a single
push of `([1],[1])` at `t₁ = 0`, drained at `now = 0`. -/
theorem imuDelay_roundtrip_first_timestamp_witness :
    ((ImuDelaySimulator.init 0).pushAll [(([1], [1]), 0)]).drain 0 1 =
      some ([([1], [1])], ImuDelaySimulator.mk 0 [] [] (some 0)) := by
  have h := (imuDelay_roundtrip_first_timestamp 0 0 0 ([1], [1]) []
    (by simp)).2 (by norm_num)
  simpa using h

/-- **C6**: on a state whose `t0` is set, `get` returns the zeroed value
`([0,0,0,0], [0,0,0])` — touching nothing — when less than `delay_ms`
milliseconds have elapsed since the first pushed timestamp, and otherwise
pops and returns the head of both queues; draining therefore yields the
queued values in exactly the order pushed (strict FIFO). -/
theorem imuDelay_get_contract (s : ImuDelaySimulator) (τ0 now : ℚ)
    (h : s.t0 = some τ0) :
    (now - τ0 < s.delay_ms / 1000 →
      s.get now = some (ImuDelaySimulator.zeroed, s)) ∧
    (¬ now - τ0 < s.delay_ms / 1000 →
      ∀ (r a : List ℚ) (rs as_ : List (List ℚ)),
        s.rot = r :: rs → s.ang_rot = a :: as_ →
          s.get now = some ((r, a), { s with rot := rs, ang_rot := as_ })) ∧
    (¬ now - τ0 < s.delay_ms / 1000 →
      ∀ vs : List (List ℚ × List ℚ),
        s.rot = vs.map Prod.fst → s.ang_rot = vs.map Prod.snd →
          s.drain now vs.length =
            some (vs, { s with rot := [], ang_rot := [] })) := by
  obtain ⟨d, rot, ang, t0⟩ := s
  simp only at h
  subst h
  refine ⟨fun hlt => ImuDelaySimulator.get_zeroed _ τ0 now rfl hlt,
    fun hge r a rs as_ hr ha =>
      ImuDelaySimulator.get_pop _ τ0 now r a rs as_ rfl hge hr ha,
    fun hge vs hr ha => ?_⟩
  subst hr; subst ha
  exact ImuDelaySimulator.drain_all now vs d τ0 hge

/-- Witness for `imuDelay_get_contract`: with `delay_ms = 1000` and a
single push at time `0`, a `get` at time `0` returns the zeroed value. -/
theorem imuDelay_get_contract_witness :
    (ImuDelaySimulator.mk 1000 [[1]] [[1]] (some 0)).get 0 =
      some (ImuDelaySimulator.zeroed,
        ImuDelaySimulator.mk 1000 [[1]] [[1]] (some 0)) :=
  (imuDelay_get_contract (ImuDelaySimulator.mk 1000 [[1]] [[1]] (some 0))
    0 0 rfl).1 (by norm_num)

/-- **C10**: `get()` called before any `push()` has ever occurred returns
no value at all (the Python code raises a `TypeError` on `t0 = None`,
modelled as `none`); after at least one push, `get()` always returns a
value. -/
theorem imuDelay_get_before_push (d now : ℚ) :
    (ImuDelaySimulator.init d).get now = none ∧
    ∀ (r a : List ℚ) (t : ℚ),
      (((ImuDelaySimulator.init d).push r a t).get now).isSome = true := by
  refine ⟨by simp [ImuDelaySimulator.init, ImuDelaySimulator.get], ?_⟩
  intro r a t
  by_cases hc : now - t < d / 1000 <;>
    simp [ImuDelaySimulator.init, ImuDelaySimulator.push,
      ImuDelaySimulator.get, hc]

/-! ## Claim theorems: contact-loss fault detection -/

/-- **C2**: with `single_support_duration = 0.2` and `DT = 0.01` (binary64
doubles), a foot whose contact is absent on every tick leaves the engine
un-FAULTED through the end of the 20th contactless tick and FAULTED at
the end of the 21st: the accumulated counter after 20 additions of the
double `0.01` is `0.20000000000000004 > 0.2`. -/
theorem faulted_first_at_tick_21 :
    (∀ n, n ≤ 20 → (contactlessTrace n).petageDeGueule = false) ∧
    (contactlessTrace 21).petageDeGueule = true := by
  set_option maxRecDepth 40000 in decide

/-- Witness for `faulted_first_at_tick_21`: the engine is still not
FAULTED at the end of the 20th contactless tick. -/
theorem faulted_first_at_tick_21_witness :
    (contactlessTrace 20).petageDeGueule = false :=
  faulted_first_at_tick_21.1 20 (by decide)

/-- **C3** (counterexample): the fault check does not consult the support
phase.  With the left counter at `0.25 > 0.2` (units `2^(-59)`) and no
contact on either foot, the code tick sets `petage_de_gueule = True`,
although the claim's condition — counter overrun *while in single support
on that side* — is false when the support is `both` (and likewise when it
is `right`). -/
theorem faultCheck_ignores_support_side :
    (contactTick false false
        (ContactState.mk (2 ^ 57) 0 false)).petageDeGueule = true ∧
    ¬ specFaultCondition SupportSide.both (2 ^ 57) 0 ∧
    ¬ specFaultCondition SupportSide.right (2 ^ 57) 0 := by
  refine ⟨by decide, ?_, ?_⟩ <;> decide

/-- **C3** (amended): at every tick the engine recomputes
`petage_de_gueule` absolutely: it is set exactly when either foot's
counter (after the contact resets) exceeds `single_support_duration`,
*regardless of the support phase*; each counter is reset to zero on
observed contact and then advanced by `DT` (binary64 addition); when both
feet are in contact the engine is never FAULTED afterwards (recovery). -/
theorem contactTick_fault_exactly_on_counter_overrun
    (lc rc : Bool) (s : ContactState) :
    ((contactTick lc rc s).petageDeGueule = true ↔
      (ssd59 < (if lc then 0 else s.tslcLeft) ∨
        ssd59 < (if rc then 0 else s.tslcRight))) ∧
    (contactTick lc rc s).tslcLeft =
      addD59 (if lc then 0 else s.tslcLeft) DT59 ∧
    (contactTick lc rc s).tslcRight =
      addD59 (if rc then 0 else s.tslcRight) DT59 ∧
    (contactTick true true s).petageDeGueule = false := by
  refine ⟨?_, rfl, rfl, by simp [contactTick]⟩
  simp [contactTick]

/-! ## Claim theorems: walk-engine tick loop -/

section EngineTheorems

variable {T S : Type}

theorem replanPhase_preserves (can : T → ℚ → Bool) (rs : T → ℚ → S)
    (wr : S → T → ℚ → T) (pdt : ℚ) (st : EngineState T) :
    (replanPhase can rs wr pdt st).t = st.t ∧
    (replanPhase can rs wr pdt st).taskTargets = st.taskTargets ∧
    (replanPhase can rs wr pdt st).contact = st.contact := by
  unfold replanPhase
  split <;> simp

theorem paceLoop_exit (deadline x : ℚ) :
    ∀ polls : List ℚ, paceLoop deadline polls = some x →
      deadline ≤ x ∧ x ∈ polls := by
  intro polls
  induction polls with
  | nil => simp [paceLoop]
  | cons now rest ih =>
    intro h
    by_cases hc : now < deadline
    · simp only [paceLoop, if_pos hc] at h
      exact ⟨(ih h).1, List.mem_cons_of_mem _ (ih h).2⟩
    · simp only [paceLoop, if_neg hc, Option.some.injEq] at h
      exact ⟨h ▸ le_of_not_lt hc, h ▸ List.mem_cons_self _ _⟩

theorem foldl_refineStep_true (traj : T) (t : ℚ) (L : List ℕ) :
    ∀ (tg : Option (T × ℚ)) (evs : List SolverEvent),
      L.foldl (refineStep true traj t) (tg, evs) =
        (tg, evs ++ L.flatMap
          (fun _ => [SolverEvent.updateKinematics, SolverEvent.solve])) := by
  induction L with
  | nil => simp
  | cons k L ih =>
    intro tg evs
    simp [refineStep, ih, List.append_assoc]

theorem foldl_refineStep_false (traj : T) (t : ℚ) (L : List ℕ) :
    ∀ (tg : Option (T × ℚ)) (evs : List SolverEvent),
      L.foldl (refineStep false traj t) (tg, evs) =
        (L.foldl (fun _ k => some (traj, t - DT + k * DT / REFINE)) tg,
          evs ++ L.flatMap
            (fun k => [SolverEvent.taskUpdate (t - DT + k * DT / REFINE),
              SolverEvent.updateKinematics, SolverEvent.solve])) := by
  induction L with
  | nil => simp
  | cons k L ih =>
    intro tg evs
    simp [refineStep, ih, List.append_assoc]

theorem refinePhase_faulted_eq (traj : T) (t : ℚ) (targets : Option (T × ℚ)) :
    refinePhase true traj t targets =
      (targets,
        (List.range REFINE).flatMap
          (fun _ => [SolverEvent.updateKinematics, SolverEvent.solve])) := by
  simpa [refinePhase] using
    foldl_refineStep_true traj t (List.range REFINE) targets []

theorem refinePhase_walking_eq (traj : T) (t : ℚ) (targets : Option (T × ℚ)) :
    refinePhase false traj t targets =
      (some (traj, t - DT + (9 : ℕ) * DT / REFINE),
        (List.range REFINE).flatMap
          (fun k => [SolverEvent.taskUpdate (t - DT + k * DT / REFINE),
            SolverEvent.updateKinematics, SolverEvent.solve])) := by
  have h := foldl_refineStep_false traj t (List.range REFINE) targets []
  rw [refinePhase, h]
  simp [REFINE, List.range_succ]

theorem count_flatMap_triple (g : ℕ → ℚ) (L : List ℕ) :
    ((L.flatMap fun k => [SolverEvent.taskUpdate (g k),
        SolverEvent.updateKinematics, SolverEvent.solve]).count
      SolverEvent.solve) = L.length ∧
    ((L.flatMap fun k => [SolverEvent.taskUpdate (g k),
        SolverEvent.updateKinematics, SolverEvent.solve]).count
      SolverEvent.updateKinematics) = L.length ∧
    ((L.flatMap fun k => [SolverEvent.taskUpdate (g k),
        SolverEvent.updateKinematics, SolverEvent.solve]).countP
      SolverEvent.isTaskUpdate) = L.length := by
  induction L with
  | nil => simp
  | cons k L ih =>
    refine ⟨?_, ?_, ?_⟩ <;>
      simp [List.count_cons, List.countP_cons, SolverEvent.isTaskUpdate,
        ih.1, ih.2.1, ih.2.2, List.count_append, List.countP_append]

theorem faultedEvents_counts :
    (((List.range REFINE).flatMap
        (fun _ => [SolverEvent.updateKinematics, SolverEvent.solve])).countP
      SolverEvent.isTaskUpdate) = 0 ∧
    (((List.range REFINE).flatMap
        (fun _ => [SolverEvent.updateKinematics, SolverEvent.solve])).count
      SolverEvent.updateKinematics) = REFINE ∧
    (((List.range REFINE).flatMap
        (fun _ => [SolverEvent.updateKinematics, SolverEvent.solve])).count
      SolverEvent.solve) = REFINE := by
  refine ⟨?_, ?_, ?_⟩ <;> decide

/-- **C4**: while `petage_de_gueule` holds, every one of the `REFINE`
sub-iterations of the tick skips `tasks.update_tasks_from_trajectory` —
the task targets stay exactly those last set in a non-faulted tick — yet
`robot.update_kinematics()` and `solver.solve` still run `REFINE` times
each; consequently a faulted tick leaves the engine's task targets
unchanged. -/
theorem faulted_tick_freezes_task_targets
    (can : T → ℚ → Bool) (rs : T → ℚ → S) (wr : S → T → ℚ → T) (pdt : ℚ)
    (traj : T) (t : ℚ) (targets : Option (T × ℚ))
    (contacts : Bool × Bool) (st : EngineState T)
    (hfault : st.contact.petageDeGueule = true) :
    (refinePhase true traj t targets).1 = targets ∧
    ((refinePhase true traj t targets).2.countP SolverEvent.isTaskUpdate) = 0 ∧
    ((refinePhase true traj t targets).2.count SolverEvent.updateKinematics)
      = REFINE ∧
    ((refinePhase true traj t targets).2.count SolverEvent.solve) = REFINE ∧
    ((tick can rs wr pdt contacts st).2.countP SolverEvent.isTaskUpdate) = 0 ∧
    (tick can rs wr pdt contacts st).1.taskTargets = st.taskTargets := by
  refine ⟨?_, ?_, ?_, ?_, ?_, ?_⟩
  · rw [refinePhase_faulted_eq]
  · rw [refinePhase_faulted_eq]; exact faultedEvents_counts.1
  · rw [refinePhase_faulted_eq]; exact faultedEvents_counts.2.1
  · rw [refinePhase_faulted_eq]; exact faultedEvents_counts.2.2
  · simp only [tick, hfault, refinePhase_faulted_eq]
    decide
  · simp only [tick, hfault, refinePhase_faulted_eq]
    rw [(replanPhase_preserves can rs wr pdt _).2.1]

/-- Witness for `faulted_tick_freezes_task_targets`: a concrete faulted
tick leaves `taskTargets` untouched. -/
theorem faulted_tick_freezes_task_targets_witness :
    (tick (T := Unit) (S := Unit) (fun _ _ => false) (fun _ _ => ())
        (fun _ _ _ => ()) 0 (false, false)
        (EngineState.mk 0 0 () none (ContactState.mk 0 0 true))).1.taskTargets
      = none :=
  (faulted_tick_freezes_task_targets (fun _ _ => false) (fun _ _ => ())
    (fun _ _ _ => ()) 0 () 0 none (false, false)
    (EngineState.mk 0 0 () none (ContactState.mk 0 0 true)) rfl).2.2.2.2.2

/-- **C5**: the replan block fires iff both
`t - last_replan > replan_timesteps * parameters.dt()` and
`walk.can_replan_supports(trajectory, t)` hold; when it does not fire the
entire state is unchanged (a silent no-op, no error); when it fires,
`last_replan` is set to the current `t` and the trajectory is replaced by
`walk.replan` over the freshly replanned supports, while the clock, task
targets and contact state are untouched. -/
theorem replan_gating (can : T → ℚ → Bool) (rs : T → ℚ → S)
    (wr : S → T → ℚ → T) (pdt : ℚ) (st : EngineState T) :
    (¬ (st.t - st.lastReplan > replanTimesteps * pdt ∧
          can st.traj st.t = true) →
        replanPhase can rs wr pdt st = st) ∧
    ((st.t - st.lastReplan > replanTimesteps * pdt ∧
          can st.traj st.t = true) →
        (replanPhase can rs wr pdt st).lastReplan = st.t ∧
        (replanPhase can rs wr pdt st).traj =
          wr (rs st.traj st.t) st.traj st.t ∧
        (replanPhase can rs wr pdt st).t = st.t ∧
        (replanPhase can rs wr pdt st).taskTargets = st.taskTargets ∧
        (replanPhase can rs wr pdt st).contact = st.contact) := by
  constructor
  · intro h
    simp only [replanPhase, if_neg h]
  · intro h
    simp only [replanPhase, if_pos h]
    simp

/-- Witness for `replan_gating`: with `can_replan_supports` constantly
false the replan block is a no-op on a concrete state. -/
theorem replan_gating_witness :
    replanPhase (T := Unit) (S := Unit) (fun _ _ => false) (fun _ _ => ())
        (fun _ _ _ => ()) 0
        (EngineState.mk 0 0 () none initContact) =
      EngineState.mk 0 0 () none initContact :=
  (replan_gating (fun _ _ => false) (fun _ _ => ()) (fun _ _ _ => ()) 0
    (EngineState.mk 0 0 () none initContact)).1 (by simp)

/-- **C7**: every tick — faulted or not — advances the planning clock by
exactly `DT`, hence strictly increases it; and the pacing loop at the end
of a tick only exits at a wall-clock reading that has reached
`start_t + t` (earlier readings keep it sleeping). -/
theorem planningClock_advance_and_pacing (can : T → ℚ → Bool)
    (rs : T → ℚ → S) (wr : S → T → ℚ → T) (pdt : ℚ)
    (contacts : Bool × Bool) (st : EngineState T)
    (deadline x : ℚ) (polls : List ℚ) :
    (tick can rs wr pdt contacts st).1.t = st.t + DT ∧
    st.t < (tick can rs wr pdt contacts st).1.t ∧
    (paceLoop deadline polls = some x → deadline ≤ x ∧ x ∈ polls) := by
  have ht : (tick can rs wr pdt contacts st).1.t = st.t + DT := by
    simp only [tick]
    rw [(replanPhase_preserves can rs wr pdt _).1]
  refine ⟨ht, ?_, paceLoop_exit deadline x polls⟩
  rw [ht]
  have : (0 : ℚ) < DT := by norm_num [DT]
  linarith

/-- Witness for `planningClock_advance_and_pacing`: a pacing loop whose
first wall-clock reading already meets the deadline exits at it. -/
theorem planningClock_advance_and_pacing_witness :
    (0 : ℚ) ≤ 0 ∧ (0 : ℚ) ∈ [(0 : ℚ)] :=
  (planningClock_advance_and_pacing (T := Unit) (S := Unit)
    (fun _ _ => false) (fun _ _ => ()) (fun _ _ _ => ()) 0 (false, false)
    (EngineState.mk 0 0 () none initContact) 0 0 [0]).2.2
    (by simp [paceLoop])

/-- **C8**: the solver integration sub-step is `DT / REFINE`; every tick
runs exactly `REFINE = 10` sub-iterations (kinematics update and solve
each occur `REFINE` times, faulted or not), and in a non-faulted tick the
`k`-th sub-iteration samples the trajectory at
`t - DT + k * DT / REFINE` for `k = 0 .. REFINE - 1`. -/
theorem refine_subiterations_and_samples (traj : T) (t : ℚ)
    (targets : Option (T × ℚ)) (petage : Bool) :
    solverDt = DT / (REFINE : ℚ) ∧
    (refinePhase false traj t targets).2 =
      (List.range REFINE).flatMap
        (fun k => [SolverEvent.taskUpdate (t - DT + k * DT / REFINE),
          SolverEvent.updateKinematics, SolverEvent.solve]) ∧
    ((refinePhase petage traj t targets).2.count SolverEvent.solve)
      = REFINE ∧
    ((refinePhase petage traj t targets).2.count
      SolverEvent.updateKinematics) = REFINE := by
  refine ⟨rfl, by rw [refinePhase_walking_eq], ?_, ?_⟩ <;> cases petage
  · rw [refinePhase_walking_eq]
    simpa using (count_flatMap_triple
      (fun k => t - DT + k * DT / REFINE) (List.range REFINE)).1
  · rw [refinePhase_faulted_eq]; exact faultedEvents_counts.2.2
  · rw [refinePhase_walking_eq]
    simpa using (count_flatMap_triple
      (fun k => t - DT + k * DT / REFINE) (List.range REFINE)).2.1
  · rw [refinePhase_faulted_eq]; exact faultedEvents_counts.2.1

end EngineTheorems

/-! ## Claim theorems: footstep planner (modelled from the spec) -/

theorem planAlternating_sides {P : Type} (place : Side → P → P) :
    ∀ (n : ℕ) (s : Side) (lp rp : P),
      (planAlternating place n s lp rp).map Footstep.side = altSides n s := by
  intro n
  induction n with
  | zero => intro s lp rp; simp [planAlternating, altSides]
  | succ n ih =>
    intro s lp rp
    cases s <;> simp [planAlternating, altSides, ih, Side.opposite]

theorem altSides_length : ∀ (n : ℕ) (s : Side), (altSides n s).length = n := by
  intro n
  induction n with
  | zero => intro s; simp [altSides]
  | succ n ih => intro s; simp [altSides, ih]

theorem altSides_chain :
    ∀ (n : ℕ) (s : Side),
      (altSides n s).Chain' (fun a b => b = a.opposite)
  | 0, s => by simp [altSides]
  | 1, s => by simp [altSides]
  | n + 2, s => by
    rw [show altSides (n + 2) s = s :: s.opposite ::
      altSides n s.opposite.opposite from rfl]
    refine List.chain'_cons.mpr ⟨rfl, ?_⟩
    exact altSides_chain (n + 1) s.opposite

/-- **C9**: for every `num_steps ≥ 0`, the planned footstep sequence has
length `num_steps + closingSteps` for the fixed constant `closingSteps`,
its first footstep is placed under the side opposite `starting_side`, and
its side tags alternate throughout. -/
theorem planFootsteps_length_and_alternation {P : Type}
    (place : Side → P → P) (numSteps : ℕ) (startingSide : Side)
    (lp rp : P) :
    (planFootsteps place numSteps startingSide lp rp).length =
      numSteps + closingSteps ∧
    (planFootsteps place numSteps startingSide lp rp).map Footstep.side =
      altSides (numSteps + closingSteps) startingSide.opposite ∧
    ((planFootsteps place numSteps startingSide lp rp).map
        Footstep.side).head? = some startingSide.opposite ∧
    ((planFootsteps place numSteps startingSide lp rp).map
        Footstep.side).Chain' (fun a b => b = a.opposite) := by
  have hm := planAlternating_sides place (numSteps + closingSteps)
    startingSide.opposite lp rp
  have hlen : (planFootsteps place numSteps startingSide lp rp).length =
      numSteps + closingSteps := by
    have := congrArg List.length hm
    simpa [planFootsteps, altSides_length] using this
  refine ⟨hlen, hm, ?_, ?_⟩
  · rw [planFootsteps, hm]
    rw [show altSides (numSteps + closingSteps) startingSide.opposite =
      startingSide.opposite :: altSides (numSteps + 1)
        startingSide.opposite.opposite from rfl]
    rfl
  · rw [planFootsteps, hm]
    exact altSides_chain _ _

end DuckWalk
